import Mathlib

/-!
Shallow embedding of the bounded semantic context store of `src/src/context.ts`
(repository SuYxh/terminal-gpt).  The TypeScript module keeps an ordered list of
conversation turns, a token counter bounded by `maxTokens`, and an
approximate-nearest-neighbour index over pseudo-embedding vectors; it exposes
`addContext`, `getContext` and `clearContext`.

The tokenizer (`@dqbd/tiktoken`) is an external collaborator; it is embedded as
an explicit function parameter `encode : String → List Nat` (deterministic, as
the spec requires).  The `hnswlib-node` index is an external library as well and
is modelled from the spec (see `ApproxIndex` below).  Everything else is a
direct translation of the source.
-/

set_option allowUnsafeReducibility true in
attribute [semireducible] Rat.mul Rat.add Rat.sub Rat.inv Rat.div

namespace TerminalGpt

/-- `ContextItem` from `src/src/context.ts` (interface ContextItem): a
conversation turn with a role and a content string. -/
structure ContextItem where
  role : String
  content : String
deriving DecidableEq, Repr

/-- The fixed vector dimension, `const dimension: number = 1536` in
`createVectorStore`. -/
def dimension : Nat := 1536

/-- The index capacity, `index.initIndex(1000)` in `createVectorStore`. -/
def maxElements : Nat := 1000

/-- Vectors are finite sequences of rationals (the source uses JS numbers; all
values produced here are exact rationals of the form token_id / 100). -/
abbrev Vec := List ℚ

/-- The `for` loop of `textToVector`
(`for (let i = 0; i < encoded.length && i < dimension; i++) vector[i] = encoded[i] / 100`):
walk the token list with the running index `i`, overwriting `vector[i]` while
`i < dimension`. -/
def fillLoop : List Nat → Nat → Vec → Vec
  | [], _, v => v
  | t :: ts, i, v =>
    if i < dimension then fillLoop ts (i + 1) (v.set i ((t : ℚ) / 100)) else v

/-- `textToVector` of `src/src/context.ts`: encode the text, start from a
zero-filled vector of length `dimension`, and run the filling loop. -/
def textToVector (encode : String → List Nat) (text : String) : Vec :=
  fillLoop (encode text) 0 (List.replicate dimension 0)

/-- Modelled from the spec: the ApproxIndex (§4.2) stands in for the external
`hnswlib-node` `HierarchicalNSW` index, which is not part of this repository's
sources.  It holds labelled points in `dimension`-dimensional space with a
pre-declared maximum point count (`maxElts`); the points list is kept in
first-insertion order of the labels. -/
structure ApproxIndex where
  maxElts : Nat
  points : List (Nat × Vec)
deriving DecidableEq, Repr

/-- Modelled from the spec: the error `ApproxIndex.insert` raises once the
pre-declared maximum point count is reached (§4.2, §7 CapacityExceeded). -/
inductive IndexError where
  | capacityExceeded
deriving DecidableEq, Repr

/-- Modelled from the spec: point insertion (§4.2), which "fails with
CapacityExceeded once the index's pre-declared maximum point count is reached".
The external library resolves a label that is already present by updating the
stored vector in place (the capacity check applies only to new labels); the
source relies on this when it reuses positional ids after an eviction. -/
def ApproxIndex.addPoint (idx : ApproxIndex) (v : Vec) (label : Nat) :
    Except IndexError ApproxIndex :=
  if idx.points.any (fun p => p.1 == label) then
    .ok ⟨idx.maxElts, idx.points.map (fun p => if p.1 == label then (p.1, v) else p)⟩
  else if idx.maxElts ≤ idx.points.length then
    .error .capacityExceeded
  else
    .ok ⟨idx.maxElts, idx.points ++ [(label, v)]⟩

/-- Drop the trailing zeros of a vector. -/
def trimZeros (v : Vec) : Vec := (v.reverse.dropWhile (fun q => q == 0)).reverse

/-- Dot product of two vectors.  Trailing zeros contribute nothing to the sum,
so both arguments are trimmed first (`textToVector` pads with zeros, so this is
the exact dot product of the padded vectors). -/
def dot (u v : Vec) : ℚ :=
  (List.zipWith (· * ·) (trimZeros u) (trimZeros v)).sum

/-- Modelled from the spec: comparison of cosine similarities (§4.2 "ranked by
increasing distance" under the cosine metric).  `simGe da na db nb` decides
`da / √na ≥ db / √nb`, where `da`, `db` are the dot products of two stored
vectors with the query and `na`, `nb` their squared norms (the query's norm is a
common positive factor and cancels); a zero-norm vector is given similarity 0.
Squaring is sound because the sign cases are split first. -/
def simGe (da na db nb : ℚ) : Bool :=
  if na = 0 then decide (db ≤ 0 ∨ nb = 0)
  else if nb = 0 then decide (0 ≤ da)
  else if 0 ≤ da then
    if 0 ≤ db then decide (db ^ 2 * na ≤ da ^ 2 * nb) else true
  else
    if 0 ≤ db then false else decide (da ^ 2 * nb ≤ db ^ 2 * na)

/-- Stable insertion into a sorted list: `x` goes in front of the first element
it compares `le` to, so earlier elements win ties. -/
def insertSorted (le : α → α → Bool) (x : α) : List α → List α
  | [] => [x]
  | y :: ys => if le x y then x :: y :: ys else y :: insertSorted le x ys

/-- Stable insertion sort (ties keep the original order). -/
def sortByNear (le : α → α → Bool) : List α → List α
  | [] => []
  | x :: xs => insertSorted le x (sortByNear le xs)

/-- Modelled from the spec: the k-nearest-neighbour query (§4.2): rank all
stored points by increasing cosine distance to `q` (equivalently decreasing
similarity, via `simGe`), deterministically breaking ties in label-insertion
order, and return the first `k` labels. -/
def ApproxIndex.searchKnn (idx : ApproxIndex) (q : Vec) (k : Nat) : List Nat :=
  let cands := idx.points.map (fun p => (p.1, dot q p.2, dot p.2 p.2))
  let sorted := sortByNear (fun a b => simGe a.2.1 a.2.2 b.2.1 b.2.2) cands
  (sorted.take k).map (fun c => c.1)

/-- The closure state of `createVectorStore`: the HNSW index, the live items
array, the token counter, and the captured `maxTokens` configuration. -/
structure VectorStore where
  maxTokens : Nat
  index : ApproxIndex
  items : List ContextItem
  currentTokens : Int
deriving DecidableEq, Repr

/-- `createVectorStore` of `src/src/context.ts`: fresh index initialised with
capacity 1000, empty items array, zero token counter. -/
def createVectorStore (maxTokens : Nat := 4096) : VectorStore :=
  ⟨maxTokens, ⟨maxElements, []⟩, [], 0⟩

/-- The placeholder returned when a neighbour id does not resolve to a live
item (`items[id] || { role: "system", content: "Context item not found" }`). -/
def notFoundItem : ContextItem := ⟨"system", "Context item not found"⟩

/-- `getRelevantContext` of `src/src/context.ts`: empty store yields `[]`;
otherwise vectorize the query, run a kNN search with `k` clamped to the live
count (`Math.min(k, items.length)`), and resolve each neighbour id by direct
positional indexing into `items`, falling back to the placeholder.  The
surrounding try/catch returns `[]` on any internal error; the embedding is a
total function, so that branch is unreachable here. -/
def getRelevantContext (encode : String → List Nat) (s : VectorStore)
    (query : String) (k : Nat := 5) : List ContextItem :=
  if s.items.length = 0 then []
  else
    let queryVector := textToVector encode query
    let neighbors := s.index.searchKnn queryVector (min k s.items.length)
    neighbors.map (fun id => s.items.getD id notFoundItem)

/-- The eviction `while` loop of `addItem`
(`while (currentTokens + tokenCount > maxTokens && items.length > 0)`):
shift the oldest item off the front and subtract its (re-encoded) token
count. -/
def evictLoop (encode : String → List Nat) (maxTokens : Nat) (tokenCount : Nat) :
    List ContextItem → Int → List ContextItem × Int
  | [], cur => ([], cur)
  | item :: rest, cur =>
    if (maxTokens : Int) < cur + tokenCount then
      evictLoop encode maxTokens tokenCount rest
        (cur - ((encode item.content).length : Int))
    else (item :: rest, cur)

/-- `addItem` of `src/src/context.ts` (valid-item path; the dynamic-input guard
lives in `addItemRaw` below): vectorize, count tokens, evict old items, then
`index.addPoint(vector, items.length)` followed by pushing the item and adding
its token count.  The enclosing try/catch swallows an `addPoint` failure
(`console.error` only), leaving the evictions committed and the item out. -/
def addItem (encode : String → List Nat) (s : VectorStore)
    (item : ContextItem) : VectorStore :=
  let vector := textToVector encode item.content
  let tokenCount := (encode item.content).length
  let evicted := evictLoop encode s.maxTokens tokenCount s.items s.currentTokens
  match s.index.addPoint vector evicted.1.length with
  | .error _ =>
      { s with items := evicted.1, currentTokens := evicted.2 }
  | .ok idx' =>
      { s with
        index := idx'
        items := evicted.1 ++ [item]
        currentTokens := evicted.2 + tokenCount }

/-- `addContext` of `src/src/context.ts`: query the store for the new item's
content (default k = 5) and skip the insert when some returned item has the
same role and content. -/
def addContext (encode : String → List Nat) (s : VectorStore)
    (item : ContextItem) : VectorStore :=
  if (getRelevantContext encode s item.content 5).any
      (fun e => e.role == item.role && e.content == item.content)
  then s
  else addItem encode s item

/-- `getContext` of `src/src/context.ts`: a relevance query with the default
`k = 5`. -/
def getContext (encode : String → List Nat) (s : VectorStore)
    (query : String) : List ContextItem :=
  getRelevantContext encode s query 5

/-- `clearContext` of `src/src/context.ts`: the global store is reassigned to
`createVectorStore()` with the default configuration (the store was also
created with the defaults, so reset preserves the configuration). -/
def clearContext (_s : VectorStore) : VectorStore :=
  createVectorStore 4096

/-- A store operation at the public boundary of `src/src/context.ts`. -/
inductive Op where
  | add (item : ContextItem)
  | query (q : String)
  | clear
deriving DecidableEq, Repr

/-- Apply one public operation to the store (`getContext` does not mutate). -/
def applyOp (encode : String → List Nat) (s : VectorStore) : Op → VectorStore
  | .add item => addContext encode s item
  | .query _ => s
  | .clear => clearContext s

/-- Run a sequence of public operations against the process-global store
(created by `createVectorStore()` with the default budget). -/
def runOps (encode : String → List Nat) (ops : List Op) : VectorStore :=
  ops.foldl (applyOp encode) (createVectorStore 4096)

/-- The sum of tokenizer-reported token counts of a list of items. -/
def tokenSum (encode : String → List Nat) (items : List ContextItem) : Int :=
  (items.map (fun it => ((encode it.content).length : Int))).sum

/-! ### The dynamically-typed input boundary

`addItem` guards against `null`/`undefined` arguments and non-string `content`
(`if (!item || typeof item.content !== "string") return`), while `addContext`
dereferences `item.content` before any guard runs.  The raw layer below models
those JavaScript dynamics: a raw argument is `none` (null/undefined) or a
`RawItem` whose `content` has a dynamic type. -/

/-- A dynamically-typed JavaScript value, as far as the store's input guard
can distinguish them: a string, or some non-string value. -/
inductive JSVal where
  | str (s : String)
  | num (n : Int)
  | undef
deriving DecidableEq, Repr

/-- A raw argument object with a dynamically-typed `content` field. -/
structure RawItem where
  role : String
  content : JSVal
deriving DecidableEq, Repr

/-- `addItem` on a raw argument: `none` models `null`/`undefined` (the `!item`
guard returns immediately, thanks to `||` short-circuiting before
`item.content` is touched); non-string `content` fails the `typeof` guard and
also returns with the store untouched. -/
def addItemRaw (encode : String → List Nat) (s : VectorStore) :
    Option RawItem → VectorStore
  | none => s
  | some it =>
    match it.content with
    | .str c => addItem encode s ⟨it.role, c⟩
    | _ => s

/-- `addContext` on a raw argument, as an `Except`: `.error ()` models an
uncaught JavaScript `TypeError`.  For `null`/`undefined` the very first
statement `vectorStore.getRelevantContext(item.content)` dereferences `null`
and throws before anything else runs.  For a non-string `content` the
relevance query fails inside its own try/catch (the tokenizer rejects
non-string input) and yields `[]`, the dedup test compares a string against a
non-string (always false), and `addItem`'s guard then returns with the store
unchanged. -/
def addContextRaw (encode : String → List Nat) (s : VectorStore) :
    Option RawItem → Except Unit VectorStore
  | none => .error ()
  | some it =>
    let existingItems :=
      match it.content with
      | .str c => getRelevantContext encode s c 5
      | _ => ([] : List ContextItem)
    if existingItems.any (fun e =>
        e.role == it.role &&
          (match it.content with | .str c => e.content == c | _ => false))
    then .ok s
    else .ok (addItemRaw encode s (some it))

/-! ### Token accounting: the eviction loop and the store invariant -/

theorem evictLoop_tokenSum (encode : String → List Nat) (M tc : Nat) :
    ∀ (items : List ContextItem) (cur : Int), cur = tokenSum encode items →
      (evictLoop encode M tc items cur).2 =
        tokenSum encode (evictLoop encode M tc items cur).1
  | [], cur, h => h
  | item :: rest, cur, h => by
    unfold evictLoop
    split
    · exact evictLoop_tokenSum encode M tc rest _ (by
        simp [tokenSum] at h ⊢
        omega)
    · exact h

theorem evictLoop_post (encode : String → List Nat) (M tc : Nat) :
    ∀ (items : List ContextItem) (cur : Int),
      (evictLoop encode M tc items cur).1 = [] ∨
        (evictLoop encode M tc items cur).2 + tc ≤ M
  | [], cur => Or.inl rfl
  | item :: rest, cur => by
    unfold evictLoop
    split
    · exact evictLoop_post encode M tc rest _
    · right
      omega

theorem evictLoop_drop (encode : String → List Nat) (M tc : Nat) :
    ∀ (items : List ContextItem) (cur : Int),
      ∃ n, (evictLoop encode M tc items cur).1 = items.drop n
  | [], cur => ⟨0, rfl⟩
  | item :: rest, cur => by
    unfold evictLoop
    split
    · obtain ⟨n, hn⟩ := evictLoop_drop encode M tc rest
        (cur - ((encode item.content).length : Int))
      exact ⟨n + 1, hn⟩
    · exact ⟨0, rfl⟩

/-- The two store invariants of the spec: I1 (`currentTokens` is the token sum
of the live items) and I2 (the budget holds, or a single over-budget Turn is
live). -/
def storeInv (encode : String → List Nat) (s : VectorStore) : Prop :=
  s.currentTokens = tokenSum encode s.items ∧
    (s.currentTokens ≤ (s.maxTokens : Int) ∨ s.items.length = 1)

theorem tokenSum_nil (encode : String → List Nat) : tokenSum encode [] = 0 := rfl

theorem tokenSum_append (encode : String → List Nat) (l₁ l₂ : List ContextItem) :
    tokenSum encode (l₁ ++ l₂) = tokenSum encode l₁ + tokenSum encode l₂ := by
  simp [tokenSum]

theorem addItem_tokenInv (encode : String → List Nat) (s : VectorStore)
    (item : ContextItem) (h : s.currentTokens = tokenSum encode s.items) :
    (addItem encode s item).currentTokens =
      tokenSum encode (addItem encode s item).items := by
  have hts := evictLoop_tokenSum encode s.maxTokens
    ((encode item.content).length) s.items s.currentTokens h
  unfold addItem
  cases hap : s.index.addPoint (textToVector encode item.content)
      (evictLoop encode s.maxTokens ((encode item.content).length)
        s.items s.currentTokens).1.length with
  | error e => simp only [hap]; exact hts
  | ok idx' =>
    simp only [hap, tokenSum_append]
    simp [tokenSum, hts]

theorem addItem_storeInv (encode : String → List Nat) (s : VectorStore)
    (item : ContextItem) (h : storeInv encode s) :
    storeInv encode (addItem encode s item) := by
  obtain ⟨h1, _h2⟩ := h
  refine ⟨addItem_tokenInv encode s item h1, ?_⟩
  have hts := evictLoop_tokenSum encode s.maxTokens
    ((encode item.content).length) s.items s.currentTokens h1
  have hpost := evictLoop_post encode s.maxTokens
    ((encode item.content).length) s.items s.currentTokens
  unfold addItem
  cases hap : s.index.addPoint (textToVector encode item.content)
      (evictLoop encode s.maxTokens ((encode item.content).length)
        s.items s.currentTokens).1.length with
  | error e =>
    rcases hpost with hnil | hle
    · left
      simp only [hap]
      simp only [hnil, tokenSum_nil] at hts
      simp [hts]
    · left
      simp only [hap]
      omega
  | ok idx' =>
    rcases hpost with hnil | hle
    · right
      simp only [hap]
      simp [hnil]
    · left
      simp only [hap]
      omega

theorem addContext_storeInv (encode : String → List Nat) (s : VectorStore)
    (item : ContextItem) (h : storeInv encode s) :
    storeInv encode (addContext encode s item) := by
  unfold addContext
  split
  · exact h
  · exact addItem_storeInv encode s item h

theorem createVectorStore_storeInv (encode : String → List Nat) (M : Nat) :
    storeInv encode (createVectorStore M) :=
  ⟨rfl, Or.inl (Int.ofNat_nonneg M)⟩

theorem foldl_addContext_storeInv (encode : String → List Nat)
    (calls : List ContextItem) :
    ∀ (s : VectorStore), storeInv encode s →
      storeInv encode (calls.foldl (addContext encode) s) := by
  induction calls with
  | nil => exact fun s h => h
  | cons c cs ih =>
    exact fun s h => ih (addContext encode s c) (addContext_storeInv encode s c h)

theorem addItem_maxTokens (encode : String → List Nat) (s : VectorStore)
    (item : ContextItem) : (addItem encode s item).maxTokens = s.maxTokens := by
  unfold addItem
  cases hap : s.index.addPoint (textToVector encode item.content)
      (evictLoop encode s.maxTokens ((encode item.content).length)
        s.items s.currentTokens).1.length with
  | error e => simp [hap]
  | ok idx' => simp [hap]

theorem addContext_maxTokens (encode : String → List Nat) (s : VectorStore)
    (item : ContextItem) : (addContext encode s item).maxTokens = s.maxTokens := by
  unfold addContext
  split
  · rfl
  · exact addItem_maxTokens encode s item

theorem foldl_addContext_maxTokens (encode : String → List Nat)
    (calls : List ContextItem) :
    ∀ (s : VectorStore),
      (calls.foldl (addContext encode) s).maxTokens = s.maxTokens := by
  induction calls with
  | nil => exact fun s => rfl
  | cons c cs ih =>
    exact fun s => (ih (addContext encode s c)).trans (addContext_maxTokens encode s c)

/-! ### Sorting and query-length lemmas -/

theorem insertSorted_length (le : α → α → Bool) (x : α) (l : List α) :
    (insertSorted le x l).length = l.length + 1 := by
  induction l with
  | nil => rfl
  | cons y ys ih =>
    unfold insertSorted
    split
    · rfl
    · simp [ih]

theorem sortByNear_length (le : α → α → Bool) (l : List α) :
    (sortByNear le l).length = l.length := by
  induction l with
  | nil => rfl
  | cons x xs ih =>
    unfold sortByNear
    rw [insertSorted_length, ih]
    rfl

theorem insertSorted_perm (le : α → α → Bool) (x : α) (l : List α) :
    (insertSorted le x l).Perm (x :: l) := by
  induction l with
  | nil => exact List.Perm.refl _
  | cons y ys ih =>
    unfold insertSorted
    split
    · exact List.Perm.refl _
    · exact (ih.cons y).trans (List.Perm.swap x y ys)

theorem sortByNear_perm (le : α → α → Bool) (l : List α) :
    (sortByNear le l).Perm l := by
  induction l with
  | nil => exact List.Perm.refl _
  | cons x xs ih =>
    unfold sortByNear
    exact (insertSorted_perm le x (sortByNear le xs)).trans (ih.cons x)

theorem searchKnn_length (idx : ApproxIndex) (q : Vec) (k : Nat) :
    (idx.searchKnn q k).length = min k idx.points.length := by
  unfold ApproxIndex.searchKnn
  simp [sortByNear_length]

/-! ### Claim theorems: budget, token accounting, query shape, fresh stores -/

/-- C2: budget invariant — for any sequence of `addContext` calls against a
fresh store with budget `M`, once each call completes `currentTokens ≤ M`
or the live sequence contains exactly one Turn. -/
theorem addContext_budget_invariant (encode : String → List Nat) (M : Nat)
    (calls : List ContextItem) :
    (calls.foldl (addContext encode) (createVectorStore M)).currentTokens ≤ (M : Int) ∨
      (calls.foldl (addContext encode) (createVectorStore M)).items.length = 1 := by
  have h := foldl_addContext_storeInv encode calls (createVectorStore M)
    (createVectorStore_storeInv encode M)
  have hM := foldl_addContext_maxTokens encode calls (createVectorStore M)
  rcases h.2 with h2 | h2
  · left
    rw [hM] at h2
    exact h2
  · right
    exact h2

theorem applyOp_tokenInv (encode : String → List Nat) (s : VectorStore) (op : Op)
    (h : s.currentTokens = tokenSum encode s.items) :
    (applyOp encode s op).currentTokens = tokenSum encode (applyOp encode s op).items := by
  cases op with
  | add item =>
    show (addContext encode s item).currentTokens =
      tokenSum encode (addContext encode s item).items
    unfold addContext
    split
    · exact h
    · exact addItem_tokenInv encode s item h
  | query q => exact h
  | clear => rfl

theorem foldl_applyOp_tokenInv (encode : String → List Nat) (ops : List Op) :
    ∀ (s : VectorStore), s.currentTokens = tokenSum encode s.items →
      (ops.foldl (applyOp encode) s).currentTokens =
        tokenSum encode (ops.foldl (applyOp encode) s).items := by
  induction ops with
  | nil => exact fun s h => h
  | cons op rest ih =>
    exact fun s h => ih (applyOp encode s op) (applyOp_tokenInv encode s op h)

/-- C7: token accounting — after every completed public store operation,
`currentTokens` equals the sum of the tokenizer-reported token counts of the
live Turns. -/
theorem currentTokens_eq_tokenSum (encode : String → List Nat) (ops : List Op) :
    (runOps encode ops).currentTokens = tokenSum encode (runOps encode ops).items :=
  foldl_applyOp_tokenInv encode ops (createVectorStore 4096) rfl

/-- C10: query totality and length bound — `getRelevantContext` is a total
function of the store, the query and `k` (the source wraps the body in a
try/catch whose error branch returns `[]`, so no exception escapes), and it
returns at most `min k (live count)` items, because `k` is clamped to the live
count before the index search. -/
theorem getRelevantContext_length_le (encode : String → List Nat)
    (s : VectorStore) (q : String) (k : Nat) :
    (getRelevantContext encode s q k).length ≤ min k s.items.length := by
  unfold getRelevantContext
  split
  · simp
  · simp only [List.length_map, searchKnn_length]
    omega

/-- C8: a freshly constructed store and a freshly reset store answer every
relevance query with the empty sequence and report zero current tokens. -/
theorem fresh_and_reset_store_empty (encode : String → List Nat) (M : Nat)
    (s : VectorStore) (q : String) (k : Nat) :
    getRelevantContext encode (createVectorStore M) q k = [] ∧
      (createVectorStore M).currentTokens = 0 ∧
      getRelevantContext encode (clearContext s) q k = [] ∧
      (clearContext s).currentTokens = 0 :=
  ⟨rfl, rfl, rfl, rfl⟩

/-! ### The vectorizer contract (C6) -/

theorem fillLoop_length : ∀ (ts : List Nat) (i : Nat) (v : Vec),
    (fillLoop ts i v).length = v.length
  | [], _, _ => rfl
  | t :: ts, i, v => by
    unfold fillLoop
    split
    · rw [fillLoop_length ts]
      simp
    · rfl

theorem fillLoop_getElem? : ∀ (ts : List Nat) (i : Nat) (v : Vec),
    v.length = dimension → ∀ j, j < dimension →
      (fillLoop ts i v)[j]? =
        if i ≤ j ∧ j < i + ts.length then some (((ts.getD (j - i) 0 : ℚ)) / 100)
        else v[j]?
  | [], i, v, _hv, j, _hj => by
    rw [if_neg (by rintro ⟨h1, h2⟩; simp only [List.length_nil, Nat.add_zero] at h2; omega)]
    rfl
  | t :: ts, i, v, hv, j, hj => by
    unfold fillLoop
    split
    · rename_i hi
      rw [fillLoop_getElem? ts (i + 1) (v.set i ((t : ℚ) / 100)) (by simp [hv]) j hj]
      rcases lt_trichotomy j i with hlt | heq | hgt
      · rw [if_neg (by rintro ⟨h1, _⟩; omega), if_neg (by rintro ⟨h1, _⟩; omega),
          List.getElem?_set_ne (by omega)]
      · subst heq
        rw [if_neg (by rintro ⟨h1, _⟩; omega), List.getElem?_set_self (by omega),
          if_pos ⟨le_rfl, by simp only [List.length_cons]; omega⟩]
        simp
      · rw [List.getElem?_set_ne (by omega)]
        by_cases hcond : i ≤ j ∧ j < i + (t :: ts).length
        · have hcond2 : i + 1 ≤ j ∧ j < i + 1 + ts.length := by
            obtain ⟨h1, h2⟩ := hcond
            simp only [List.length_cons] at h2
            exact ⟨by omega, by omega⟩
          rw [if_pos hcond2, if_pos hcond]
          have hji : j - i = (j - (i + 1)) + 1 := by omega
          rw [hji, List.getD_cons_succ]
        · have hcond2 : ¬(i + 1 ≤ j ∧ j < i + 1 + ts.length) := by
            intro hc
            exact hcond ⟨by omega, by simp only [List.length_cons]; omega⟩
          rw [if_neg hcond2, if_neg hcond]
    · rename_i hi
      rw [if_neg (by rintro ⟨h1, _⟩; omega)]

/-- C6: the vectorizer contract — `textToVector` deterministically returns a
vector of the fixed dimension where position `i` holds `token_id[i] / 100` for
`i` below the token count (token lists longer than the dimension are truncated
by the loop bound) and `0` beyond it. -/
theorem textToVector_contract (encode : String → List Nat) (text : String)
    (i : Nat) (h : i < dimension) :
    (textToVector encode text).length = dimension ∧
      (textToVector encode text).getD i 0 =
        (if i < (encode text).length then ((encode text).getD i 0 : ℚ) / 100 else 0) := by
  constructor
  · unfold textToVector
    rw [fillLoop_length]
    simp
  · unfold textToVector
    rw [List.getD_eq_getElem?_getD,
      fillLoop_getElem? (encode text) 0 (List.replicate dimension 0) (by simp) i h]
    by_cases hc : i < (encode text).length
    · rw [if_pos ⟨Nat.zero_le i, by omega⟩, if_pos hc]
      simp
    · rw [if_neg (by omega), if_neg hc]
      simp [List.getElem?_replicate_of_lt h]

/-- A concrete tokenizer fixture for witnesses: one token per character, the
token id being the character code. -/
def chEncode : String → List Nat := fun s => s.toList.map Char.toNat

/-- Witness for C6 at a concrete tokenizer, text and position. -/
theorem textToVector_contract_witness :
    2 < dimension ∧
      ((textToVector chEncode "ab").length = dimension ∧
        (textToVector chEncode "ab").getD 2 0 =
          (if 2 < (chEncode "ab").length then ((chEncode "ab").getD 2 0 : ℚ) / 100
           else 0)) :=
  ⟨by decide, textToVector_contract chEncode "ab" 2 (by decide)⟩

/-! ### Aligned stores

As long as no eviction has occurred, the positional ids of the source agree
with the live positions: the index holds exactly one point per live item, the
point's label being the item's position and its vector the item's content
vector.  `alignedPoints` builds that point list. -/

/-- The index contents of an eviction-free store: one point per item, labelled
by position starting at `start`. -/
def alignedPoints (encode : String → List Nat) :
    List ContextItem → Nat → List (Nat × Vec)
  | [], _ => []
  | it :: rest, start =>
    (start, textToVector encode it.content) :: alignedPoints encode rest (start + 1)

theorem alignedPoints_length (encode : String → List Nat) :
    ∀ (items : List ContextItem) (n : Nat),
      (alignedPoints encode items n).length = items.length
  | [], _ => rfl
  | it :: rest, n => by
    unfold alignedPoints
    simp [alignedPoints_length encode rest]

theorem alignedPoints_append (encode : String → List Nat) :
    ∀ (l₁ l₂ : List ContextItem) (n : Nat),
      alignedPoints encode (l₁ ++ l₂) n =
        alignedPoints encode l₁ n ++ alignedPoints encode l₂ (n + l₁.length)
  | [], l₂, n => by simp [alignedPoints]
  | it :: rest, l₂, n => by
    have h1 : n + 1 + rest.length = n + (it :: rest).length := by
      simp only [List.length_cons]
      omega
    show (n, textToVector encode it.content) :: alignedPoints encode (rest ++ l₂) (n + 1) =
      ((n, textToVector encode it.content) :: alignedPoints encode rest (n + 1)) ++
        alignedPoints encode l₂ (n + (it :: rest).length)
    rw [List.cons_append, alignedPoints_append encode rest l₂ (n + 1), h1]

theorem mem_alignedPoints_fst (encode : String → List Nat) :
    ∀ (items : List ContextItem) (n : Nat) (p : Nat × Vec),
      p ∈ alignedPoints encode items n → n ≤ p.1 ∧ p.1 < n + items.length
  | [], _, p, hp => by simp [alignedPoints] at hp
  | it :: rest, n, p, hp => by
    unfold alignedPoints at hp
    rcases List.mem_cons.1 hp with h | h
    · subst h
      simp
    · have := mem_alignedPoints_fst encode rest (n + 1) p h
      constructor
      · omega
      · simp only [List.length_cons]
        omega

theorem alignedPoints_fst_mem (encode : String → List Nat) :
    ∀ (items : List ContextItem) (n j : Nat), j < items.length →
      (n + j) ∈ (alignedPoints encode items n).map Prod.fst
  | [], _, j, hj => by simp at hj
  | it :: rest, n, j, hj => by
    unfold alignedPoints
    cases j with
    | zero => simp
    | succ j' =>
      right
      have := alignedPoints_fst_mem encode rest (n + 1) j'
        (by simp only [List.length_cons] at hj; omega)
      have harith : n + 1 + j' = n + (j' + 1) := by omega
      rwa [harith] at this

/-! ### Search results come from stored labels -/

theorem searchKnn_sub (idx : ApproxIndex) (q : Vec) (k : Nat) :
    ∀ id ∈ idx.searchKnn q k, id ∈ idx.points.map Prod.fst := by
  intro id hid
  unfold ApproxIndex.searchKnn at hid
  obtain ⟨c, hc, hcid⟩ := List.mem_map.1 hid
  have hc2 : c ∈ sortByNear (fun a b => simGe a.2.1 a.2.2 b.2.1 b.2.2)
      (idx.points.map (fun p => (p.1, dot q p.2, dot p.2 p.2))) :=
    List.take_subset k _ hc
  have hc3 : c ∈ idx.points.map (fun p => (p.1, dot q p.2, dot p.2 p.2)) :=
    (sortByNear_perm _ _).mem_iff.1 hc2
  obtain ⟨p, hp, hpc⟩ := List.mem_map.1 hc3
  exact List.mem_map.2 ⟨p, hp, by rw [← hcid, ← hpc]⟩

theorem searchKnn_all (idx : ApproxIndex) (q : Vec) (k : Nat)
    (hk : idx.points.length ≤ k) :
    ∀ l ∈ idx.points.map Prod.fst, l ∈ idx.searchKnn q k := by
  intro l hl
  have hlen : (sortByNear (fun a b => simGe a.2.1 a.2.2 b.2.1 b.2.2)
      (idx.points.map (fun p => (p.1, dot q p.2, dot p.2 p.2)))).length ≤ k := by
    rw [sortByNear_length]
    simpa using hk
  show l ∈ (List.take k (sortByNear (fun a b => simGe a.2.1 a.2.2 b.2.1 b.2.2)
    (idx.points.map (fun p => (p.1, dot q p.2, dot p.2 p.2))))).map (fun c => c.1)
  rw [List.take_of_length_le hlen]
  obtain ⟨p, hp, hpl⟩ := List.mem_map.1 hl
  refine List.mem_map.2 ⟨(p.1, dot q p.2, dot p.2 p.2), ?_, hpl⟩
  exact (sortByNear_perm _ _).mem_iff.2 (List.mem_map.2 ⟨p, hp, rfl⟩)

/-! ### Relevance results of an aligned store are live items -/

theorem getRelevantContext_mem_of_aligned (encode : String → List Nat)
    (s : VectorStore) (q : String) (k : Nat)
    (hal : s.index.points = alignedPoints encode s.items 0) :
    ∀ e ∈ getRelevantContext encode s q k, e ∈ s.items := by
  intro e he
  unfold getRelevantContext at he
  split at he
  · simp at he
  · obtain ⟨id, hid, hres⟩ := List.mem_map.1 he
    have hlab := searchKnn_sub s.index _ _ id hid
    rw [hal] at hlab
    obtain ⟨p, hp, hpid⟩ := List.mem_map.1 hlab
    have hbound := mem_alignedPoints_fst encode s.items 0 p hp
    have hlt : id < s.items.length := by omega
    rw [← hres, List.getD_eq_getElem?_getD, List.getElem?_eq_getElem hlt]
    exact List.getElem_mem hlt

theorem dedup_any_false (encode : String → List Nat) (s : VectorStore)
    (X : ContextItem)
    (hal : s.index.points = alignedPoints encode s.items 0)
    (hX : X ∉ s.items) :
    (getRelevantContext encode s X.content 5).any
      (fun e => e.role == X.role && e.content == X.content) = false := by
  rw [List.any_eq_false]
  intro e he hpred
  have hmem := getRelevantContext_mem_of_aligned encode s X.content 5 hal e he
  apply hX
  have heX : e = X := by
    simp only [Bool.and_eq_true, beq_iff_eq] at hpred
    cases e
    cases X
    simp only [ContextItem.mk.injEq]
    exact hpred
  rwa [heX] at hmem

/-! ### The eviction loop does nothing when the budget holds -/

theorem evictLoop_noop (encode : String → List Nat) (M tc : Nat)
    (items : List ContextItem) (cur : Int)
    (h : ¬ ((M : Int) < cur + tc)) :
    evictLoop encode M tc items cur = (items, cur) := by
  cases items with
  | nil => rfl
  | cons it rest =>
    unfold evictLoop
    rw [if_neg h]

/-! ### Insertion into an aligned store within budget -/

theorem alignedPoints_snoc (encode : String → List Nat) (items : List ContextItem)
    (X : ContextItem) :
    alignedPoints encode (items ++ [X]) 0 =
      alignedPoints encode items 0 ++
        [(items.length, textToVector encode X.content)] := by
  rw [alignedPoints_append encode items [X] 0, Nat.zero_add]
  rfl

theorem addItem_aligned_insert (encode : String → List Nat) (s : VectorStore)
    (X : ContextItem)
    (hal : s.index.points = alignedPoints encode s.items 0)
    (hcap : s.items.length < s.index.maxElts)
    (hbudget : s.currentTokens + ((encode X.content).length : Int) ≤ (s.maxTokens : Int)) :
    addItem encode s X =
      { maxTokens := s.maxTokens,
        index := ⟨s.index.maxElts,
          s.index.points ++ [(s.items.length, textToVector encode X.content)]⟩,
        items := s.items ++ [X],
        currentTokens := s.currentTokens + ((encode X.content).length : Int) } := by
  have hev := evictLoop_noop encode s.maxTokens ((encode X.content).length)
    s.items s.currentTokens (by omega)
  have hany : s.index.points.any (fun p => p.1 == s.items.length) = false := by
    rw [List.any_eq_false]
    intro p hp
    rw [hal] at hp
    have hb := mem_alignedPoints_fst encode s.items 0 p hp
    simp only [beq_iff_eq]
    omega
  have hlenpts : s.index.points.length = s.items.length := by
    rw [hal, alignedPoints_length]
  have hap : s.index.addPoint (textToVector encode X.content) s.items.length =
      .ok ⟨s.index.maxElts,
        s.index.points ++ [(s.items.length, textToVector encode X.content)]⟩ := by
    unfold ApproxIndex.addPoint
    rw [hany]
    simp only [Bool.false_eq_true, if_false]
    rw [if_neg (by omega)]
  simp only [addItem, hev, hap]

theorem addContext_aligned_insert (encode : String → List Nat) (s : VectorStore)
    (X : ContextItem)
    (hal : s.index.points = alignedPoints encode s.items 0)
    (hcap : s.items.length < s.index.maxElts)
    (hX : X ∉ s.items)
    (hbudget : s.currentTokens + ((encode X.content).length : Int) ≤ (s.maxTokens : Int)) :
    addContext encode s X =
      { maxTokens := s.maxTokens,
        index := ⟨s.index.maxElts,
          s.index.points ++ [(s.items.length, textToVector encode X.content)]⟩,
        items := s.items ++ [X],
        currentTokens := s.currentTokens + ((encode X.content).length : Int) } := by
  unfold addContext
  rw [dedup_any_false encode s X hal hX]
  simp only [Bool.false_eq_true, if_false]
  exact addItem_aligned_insert encode s X hal hcap hbudget

/-! ### A duplicate insert into a small aligned store is skipped -/

theorem addContext_dedup_skip (encode : String → List Nat) (s : VectorStore)
    (X : ContextItem)
    (hal : s.index.points = alignedPoints encode s.items 0)
    (hlen : s.items.length ≤ 5)
    (hX : X ∈ s.items) :
    addContext encode s X = s := by
  unfold addContext
  rw [if_pos ?_]
  rw [List.any_eq_true]
  obtain ⟨j, hj, hget⟩ := List.mem_iff_getElem.1 hX
  have hlab : j ∈ s.index.points.map Prod.fst := by
    rw [hal]
    have := alignedPoints_fst_mem encode s.items 0 j hj
    simpa using this
  have hj_in : j ∈ s.index.searchKnn (textToVector encode X.content)
      (min 5 s.items.length) := by
    apply searchKnn_all
    · rw [hal, alignedPoints_length]
      omega
    · exact hlab
  refine ⟨X, ?_, by simp⟩
  have hpos : s.items.length ≠ 0 := by
    have := List.length_pos.2 (List.ne_nil_of_mem hX)
    omega
  show X ∈ getRelevantContext encode s X.content 5
  unfold getRelevantContext
  rw [if_neg hpos]
  refine List.mem_map.2 ⟨j, hj_in, ?_⟩
  rw [List.getD_eq_getElem?_getD, List.getElem?_eq_getElem hj]
  exact hget

/-! ### C4: FIFO eviction -/

/-- C4: FIFO eviction — with every Turn counting `maxTokens / 2` tokens (budget
`2 * tc` with `tc ≥ 1`), three distinct `addContext` calls leave, after the
third insertion, exactly the two most recently inserted Turns live, the first
Turn having been evicted from the oldest end. -/
theorem fifo_eviction (encode : String → List Nat) (tc : Nat)
    (T1 T2 T3 : ContextItem)
    (htc1 : (encode T1.content).length = tc)
    (htc2 : (encode T2.content).length = tc)
    (htc3 : (encode T3.content).length = tc)
    (htcpos : 1 ≤ tc)
    (h12 : T1 ≠ T2) (h13 : T1 ≠ T3) (h23 : T2 ≠ T3) :
    (addContext encode (createVectorStore (2 * tc)) T1).items = [T1] ∧
      (addContext encode (addContext encode (createVectorStore (2 * tc)) T1)
        T2).items = [T1, T2] ∧
      (addContext encode (addContext encode (addContext encode
        (createVectorStore (2 * tc)) T1) T2) T3).items = [T2, T3] := by
  have e1 : addContext encode (createVectorStore (2 * tc)) T1 =
      ⟨2 * tc, ⟨maxElements, [(0, textToVector encode T1.content)]⟩, [T1],
        ((encode T1.content).length : Int)⟩ := by
    rw [addContext_aligned_insert encode (createVectorStore (2 * tc)) T1 rfl
      (by show (0 : Nat) < maxElements; decide)
      (by show T1 ∉ ([] : List ContextItem); simp)
      (by show (0 : Int) + ((encode T1.content).length : Int) ≤ ((2 * tc : Nat) : Int)
          rw [htc1]; push_cast; omega)]
    simp [createVectorStore]
  have e2 : addContext encode (addContext encode (createVectorStore (2 * tc)) T1) T2 =
      ⟨2 * tc, ⟨maxElements, [(0, textToVector encode T1.content),
          (1, textToVector encode T2.content)]⟩, [T1, T2],
        ((encode T1.content).length : Int) + ((encode T2.content).length : Int)⟩ := by
    rw [e1]
    rw [addContext_aligned_insert encode
      ⟨2 * tc, ⟨maxElements, [(0, textToVector encode T1.content)]⟩, [T1],
        ((encode T1.content).length : Int)⟩ T2 rfl
      (by show (1 : Nat) < maxElements; decide)
      (by show T2 ∉ [T1]; simp only [List.mem_singleton]; exact fun h => h12 h.symm)
      (by show ((encode T1.content).length : Int) + ((encode T2.content).length : Int) ≤
            ((2 * tc : Nat) : Int)
          rw [htc1, htc2]; push_cast; omega)]
    rfl
  have hev3 : evictLoop encode (2 * tc) ((encode T3.content).length) [T1, T2]
      (((encode T1.content).length : Int) + ((encode T2.content).length : Int)) =
      ([T2], ((encode T2.content).length : Int)) := by
    unfold evictLoop
    rw [if_pos (by rw [htc1, htc2, htc3]; push_cast; omega)]
    unfold evictLoop
    rw [if_neg (by rw [htc2, htc3]; push_cast; omega)]
    have harith : ((encode T1.content).length : Int) + ((encode T2.content).length : Int) -
        ((encode T1.content).length : Int) = ((encode T2.content).length : Int) := by
      omega
    rw [harith]
  have hap3 : (ApproxIndex.mk maxElements [(0, textToVector encode T1.content),
      (1, textToVector encode T2.content)]).addPoint (textToVector encode T3.content) 1 =
      .ok ⟨maxElements, [(0, textToVector encode T1.content),
        (1, textToVector encode T3.content)]⟩ := by
    unfold ApproxIndex.addPoint
    rw [if_pos (by simp)]
    simp
  have e3 : addContext encode (addContext encode (addContext encode
      (createVectorStore (2 * tc)) T1) T2) T3 =
      ⟨2 * tc, ⟨maxElements, [(0, textToVector encode T1.content),
          (1, textToVector encode T3.content)]⟩, [T2, T3],
        ((encode T2.content).length : Int) + ((encode T3.content).length : Int)⟩ := by
    rw [e2]
    unfold addContext
    rw [dedup_any_false encode
      ⟨2 * tc, ⟨maxElements, [(0, textToVector encode T1.content),
          (1, textToVector encode T2.content)]⟩, [T1, T2],
        ((encode T1.content).length : Int) + ((encode T2.content).length : Int)⟩ T3 rfl
      (by simp [h13.symm, h23.symm])]
    simp only [Bool.false_eq_true, if_false]
    simp only [addItem, hev3, List.length_cons, List.length_nil, Nat.zero_add]
    simp only [hap3]
    simp
  exact ⟨by rw [e1], by rw [e2], by rw [e3]⟩

/-- Witness for C4: character tokenizer, `tc = 1`, budget 2, three distinct
Turns. -/
theorem fifo_eviction_witness :
    (addContext chEncode (createVectorStore 2) ⟨"user", "a"⟩).items = [⟨"user", "a"⟩] ∧
      (addContext chEncode (addContext chEncode (createVectorStore 2) ⟨"user", "a"⟩)
        ⟨"user", "b"⟩).items = [⟨"user", "a"⟩, ⟨"user", "b"⟩] ∧
      (addContext chEncode (addContext chEncode (addContext chEncode
        (createVectorStore 2) ⟨"user", "a"⟩) ⟨"user", "b"⟩) ⟨"user", "c"⟩).items =
        [⟨"user", "b"⟩, ⟨"user", "c"⟩] :=
  fifo_eviction chEncode 1 ⟨"user", "a"⟩ ⟨"user", "b"⟩ ⟨"user", "c"⟩
    (by decide) (by decide) (by decide) (by decide)
    (by decide) (by decide) (by decide)

/-! ### C5: deduplication -/

/-- Five distinct single-token filler Turns. -/
def c5Fillers : List ContextItem :=
  [⟨"user", "a"⟩, ⟨"user", "b"⟩, ⟨"user", "c"⟩, ⟨"user", "d"⟩, ⟨"user", "e"⟩]

/-- The duplicated Turn of the C5 counterexample. -/
def c5X : ContextItem := ⟨"user", "x"⟩

/-- C5 counterexample: after five distinct single-token Turns, two consecutive
`addContext` calls with the same role and content (`user`/`x`, nothing being
evicted in between — the budget 4096 is never reached) leave TWO live Turns
with that content, and `currentTokens` rises on both calls (5 → 6 → 7): under
the pseudo-embedding every single-token content has cosine distance 0 to every
other, so the second call's top-5 dedup query returns the five earlier points
and never sees the first copy. -/
theorem dedup_miss_two_copies :
    ((c5Fillers ++ [c5X]).foldl (addContext chEncode)
        (createVectorStore 4096)).currentTokens = 6 ∧
      ((c5Fillers ++ [c5X, c5X]).foldl (addContext chEncode)
        (createVectorStore 4096)).items.count c5X = 2 ∧
      ((c5Fillers ++ [c5X, c5X]).foldl (addContext chEncode)
        (createVectorStore 4096)).currentTokens = 7 := by
  set_option maxRecDepth 100000 in decide

/-- C5 (amended): dedup idempotence holds on an eviction-free (aligned) store
with at most 4 live Turns, none equal to the new Turn, and budget slack: the
first `addContext` appends one copy, the second is a no-op, and `currentTokens`
changes only once. -/
theorem dedup_idempotent_small_aligned (encode : String → List Nat)
    (s : VectorStore) (X : ContextItem)
    (hal : s.index.points = alignedPoints encode s.items 0)
    (hlen : s.items.length ≤ 4)
    (hcap : s.items.length < s.index.maxElts)
    (hX : X ∉ s.items)
    (hbudget : s.currentTokens + ((encode X.content).length : Int) ≤ (s.maxTokens : Int)) :
    addContext encode (addContext encode s X) X = addContext encode s X ∧
      (addContext encode s X).items = s.items ++ [X] ∧
      (addContext encode s X).currentTokens =
        s.currentTokens + ((encode X.content).length : Int) := by
  have h1 := addContext_aligned_insert encode s X hal hcap hX hbudget
  refine ⟨?_, by rw [h1], by rw [h1]⟩
  rw [h1]
  apply addContext_dedup_skip
  · show s.index.points ++ [(s.items.length, textToVector encode X.content)] =
      alignedPoints encode (s.items ++ [X]) 0
    rw [hal, alignedPoints_snoc]
  · show (s.items ++ [X]).length ≤ 5
    simp only [List.length_append, List.length_singleton]
    omega
  · show X ∈ s.items ++ [X]
    simp

/-- Witness for the amended C5 on a concrete aligned one-item store. -/
theorem dedup_idempotent_small_aligned_witness :
    addContext chEncode (addContext chEncode
        ⟨4096, ⟨maxElements, alignedPoints chEncode [⟨"user", "a"⟩] 0⟩,
          [⟨"user", "a"⟩], 1⟩ ⟨"user", "x"⟩) ⟨"user", "x"⟩ =
      addContext chEncode
        ⟨4096, ⟨maxElements, alignedPoints chEncode [⟨"user", "a"⟩] 0⟩,
          [⟨"user", "a"⟩], 1⟩ ⟨"user", "x"⟩ ∧
      (addContext chEncode
        ⟨4096, ⟨maxElements, alignedPoints chEncode [⟨"user", "a"⟩] 0⟩,
          [⟨"user", "a"⟩], 1⟩ ⟨"user", "x"⟩).items = [⟨"user", "a"⟩] ++ [⟨"user", "x"⟩] ∧
      (addContext chEncode
        ⟨4096, ⟨maxElements, alignedPoints chEncode [⟨"user", "a"⟩] 0⟩,
          [⟨"user", "a"⟩], 1⟩ ⟨"user", "x"⟩).currentTokens =
        1 + ((chEncode "x").length : Int) :=
  dedup_idempotent_small_aligned chEncode
    ⟨4096, ⟨maxElements, alignedPoints chEncode [⟨"user", "a"⟩] 0⟩,
      [⟨"user", "a"⟩], 1⟩ ⟨"user", "x"⟩
    rfl (by decide) (by decide) (by decide) (by decide)

/-! ### C1: positional-id stability -/

/-- Tokenizer fixture for the C1 run: "a" and "b" are one token, "c" is two
tokens (so its vector is not colinear with the single-token ones). -/
def c1Encode : String → List Nat := fun s =>
  if s = "a" then [50] else if s = "b" then [60] else if s = "c" then [70, 80] else []

/-- C1: the positional-id defect of the source, evaluated concretely.  With
budget 3, inserting user/a (1 token, stored under id 0), then user/b (1 token,
id 1), then user/c (2 tokens) makes the third insert evict user/a and register
the new vector under the REUSED id 1 (`items.length` after the shift).  The
Turn originally stored under id 0 is user/a and is now evicted; yet querying
"a" returns neighbour ids [0, 1], and id 0 resolves positionally to user/b — a
different Turn than the one originally stored under that id, and the evicted
Turn's id surfaces in the results. -/
theorem positional_id_bug :
    (addContext c1Encode (createVectorStore 3) ⟨"user", "a"⟩).items =
        [⟨"user", "a"⟩] ∧
      (addContext c1Encode (createVectorStore 3) ⟨"user", "a"⟩).index.points.map
        Prod.fst = [0] ∧
      (⟨"user", "a"⟩ : ContextItem) ∉ (addContext c1Encode (addContext c1Encode
        (addContext c1Encode (createVectorStore 3) ⟨"user", "a"⟩) ⟨"user", "b"⟩)
        ⟨"user", "c"⟩).items ∧
      (addContext c1Encode (addContext c1Encode (addContext c1Encode
        (createVectorStore 3) ⟨"user", "a"⟩) ⟨"user", "b"⟩)
        ⟨"user", "c"⟩).index.searchKnn (textToVector c1Encode "a")
        (min 5 (addContext c1Encode (addContext c1Encode (addContext c1Encode
          (createVectorStore 3) ⟨"user", "a"⟩) ⟨"user", "b"⟩)
          ⟨"user", "c"⟩).items.length) = [0, 1] ∧
      getRelevantContext c1Encode (addContext c1Encode (addContext c1Encode
        (addContext c1Encode (createVectorStore 3) ⟨"user", "a"⟩) ⟨"user", "b"⟩)
        ⟨"user", "c"⟩) "a" 5 = [⟨"user", "b"⟩, ⟨"user", "c"⟩] := by
  set_option maxRecDepth 100000 in decide

/-! ### C3: capacity exhaustion is swallowed -/

/-- C3: when the positional id is a fresh label and the index is at capacity,
`addItem`'s catch block swallows the CapacityExceeded failure: with no
eviction triggered, the call returns with the store completely unchanged — the
Turn is indeed kept out of the live sequence (insert stays atomic here), but
no failure reaches the caller: the function returns normally, exactly like the
source's `void` return with its catch-and-log. -/
theorem addItem_capacity_swallowed (encode : String → List Nat)
    (s : VectorStore) (item : ContextItem)
    (hnoevict : ¬ ((s.maxTokens : Int) <
      s.currentTokens + ((encode item.content).length : Int)))
    (hfresh : s.index.points.any (fun p => p.1 == s.items.length) = false)
    (hfull : s.index.maxElts ≤ s.index.points.length) :
    addItem encode s item = s := by
  have hev := evictLoop_noop encode s.maxTokens ((encode item.content).length)
    s.items s.currentTokens hnoevict
  have hap : s.index.addPoint (textToVector encode item.content) s.items.length =
      .error .capacityExceeded := by
    unfold ApproxIndex.addPoint
    rw [hfresh]
    simp only [Bool.false_eq_true, if_false]
    rw [if_pos hfull]
  simp only [addItem, hev, hap]

/-- A full index for the C3 witness: 1000 points with labels 0..999 (the
stored vectors are irrelevant to the capacity check). -/
def fullPoints : List (Nat × Vec) := (List.range 1000).map (fun i => (i, []))

/-- 1000 live Turns, so that the next positional id (1000) is a fresh label. -/
def fullItems : List ContextItem := (List.range 1000).map (fun _ => ⟨"user", "t"⟩)

/-- A store whose index is at its declared capacity. -/
def fullStore : VectorStore := ⟨4096, ⟨maxElements, fullPoints⟩, fullItems, 1000⟩

set_option maxRecDepth 100000 in
/-- Witness for C3 at the concrete full store. -/
theorem addItem_capacity_swallowed_witness :
    (¬ ((fullStore.maxTokens : Int) <
        fullStore.currentTokens + ((chEncode "x").length : Int))) ∧
      (fullStore.index.points.any (fun p => p.1 == fullStore.items.length) = false) ∧
      (fullStore.index.maxElts ≤ fullStore.index.points.length) ∧
      addItem chEncode fullStore ⟨"user", "x"⟩ = fullStore :=
  ⟨by decide, by decide, by decide,
    addItem_capacity_swallowed chEncode fullStore ⟨"user", "x"⟩
      (by decide) (by decide) (by decide)⟩

/-! ### C9: the dynamic input guard -/

/-- C9 counterexample: a `null`/`undefined` argument makes `addContext` throw
(the modelled TypeError) rather than return — `item.content` is dereferenced
by `getRelevantContext(item.content)` before any guard runs. -/
theorem addContext_null_throws :
    addContextRaw chEncode (createVectorStore 4096) none = .error () := rfl

/-- C9 (amended): every invalid input leaves the store unchanged — an argument
whose `content` is not a string makes `addContext` return normally with the
state untouched, and `addItem`'s own guard covers both `null`/`undefined` and
non-string content; but a `null`/`undefined` argument to `addContext` throws
(see the companion counterexample) instead of returning. -/
theorem invalid_input_unchanged (encode : String → List Nat) (s : VectorStore)
    (it : RawItem) (hns : ∀ c : String, it.content ≠ JSVal.str c) :
    addContextRaw encode s (some it) = .ok s ∧
      addItemRaw encode s (some it) = s ∧
      addItemRaw encode s none = s := by
  obtain ⟨role, content⟩ := it
  cases content with
  | str c => exact absurd rfl (hns c)
  | num n => exact ⟨rfl, rfl, rfl⟩
  | undef => exact ⟨rfl, rfl, rfl⟩

/-- Witness for the amended C9 at a concrete non-string content. -/
theorem invalid_input_unchanged_witness :
    (∀ c : String, (RawItem.mk "user" (JSVal.num 42)).content ≠ JSVal.str c) ∧
      (addContextRaw chEncode (createVectorStore 4096)
          (some ⟨"user", JSVal.num 42⟩) = .ok (createVectorStore 4096) ∧
        addItemRaw chEncode (createVectorStore 4096)
          (some ⟨"user", JSVal.num 42⟩) = createVectorStore 4096 ∧
        addItemRaw chEncode (createVectorStore 4096) none = createVectorStore 4096) :=
  ⟨fun _c h => JSVal.noConfusion h,
    invalid_input_unchanged chEncode (createVectorStore 4096)
      ⟨"user", JSVal.num 42⟩ (fun _c h => JSVal.noConfusion h)⟩

end TerminalGpt
